import Mathlib

/-!
Verification of the medical-QA-assistant RAG core.

Shallow embedding of the Go sources:
  * `backend/internal/services/rag_service.go`      — chunker, indexer, retriever, deleter
  * `backend/internal/services/document_service.go` — document create/delete orchestration
  * `backend/internal/services/qa_service.go`       — streaming answer loop
  * `pkg/chroma` client (`Client.Add` / `Query` / `GetIDsByMetadata` / `Delete`)

External collaborators (the Chroma vector store's server-side behaviour, the
embedding provider, the relational repository, HTTP transport) are modelled as
explicit oracle parameters / state transitions following the spec's interface
descriptions (spec §4.3, §6).  Go `uint` is modelled as `Nat`, Go `int` as
`Int` where signedness matters, Go strings/runes as `String` / `List Char`,
and fallible calls as `Except String`.
-/

/-! ### Go string helpers: `unicode.IsSpace` and `strings.TrimSpace` -/

/-- Models Go's `unicode.IsSpace`: the Unicode White_Space property
(`\t \n \v \f \r space NEL NBSP` plus the Unicode space separators). -/
def isSpaceGo (c : Char) : Bool :=
  c.val = 0x20 || (0x9 ≤ c.val && c.val ≤ 0xD) || c.val = 0x85 || c.val = 0xA0 ||
  c.val = 0x1680 || (0x2000 ≤ c.val && c.val ≤ 0x200A) ||
  c.val = 0x2028 || c.val = 0x2029 || c.val = 0x202F || c.val = 0x205F || c.val = 0x3000

/-- Models Go's `strings.TrimSpace` on the rune list: drop leading and
trailing white space. -/
def goTrimList (cs : List Char) : List Char :=
  ((cs.dropWhile isSpaceGo).reverse.dropWhile isSpaceGo).reverse

/-- Models Go's `strings.TrimSpace` on strings. -/
def goTrim (s : String) : String :=
  String.mk (goTrimList s.data)

/-! ### The chunker (`chunkText`, rag_service.go lines 278–294) -/

/-- The loop of `chunkText`: repeatedly take `maxLen` runes.  `fuel` is an
upper bound on the number of iterations (the caller passes `cs.length`,
which suffices whenever `0 < maxLen`); it only makes the recursion
structural. -/
def chunkLoop (maxLen : Nat) : Nat → List Char → List (List Char)
  | 0, _ => []
  | _, [] => []
  | fuel + 1, c :: cs => (c :: cs).take maxLen :: chunkLoop maxLen fuel ((c :: cs).drop maxLen)

/-- Models `chunkText(text, maxLen)`: trim the text; if empty or
`maxLen <= 0` return no chunks; otherwise split the rune slice into
consecutive pieces of `maxLen` runes (the last one possibly shorter). -/
def chunkText (text : String) (maxLen : Int) : List String :=
  let t := goTrimList text.data
  if t = [] ∨ maxLen ≤ 0 then []
  else (chunkLoop maxLen.toNat t.length t).map (fun cs => String.mk cs)

/-! ### Metadata values and where-filters (Chroma wire model) -/

/-- A metadata value as it travels over the Chroma wire: a Go `int`
(as placed into `map[string]interface{}` by the indexer), a JSON number
(what `encoding/json` decodes numbers to, i.e. `float64`), or a string. -/
inductive MetaValue where
  | int (n : Int)
  | num (q : Rat)
  | str (s : String)
  deriving DecidableEq

/-- A metadata map, as an association list (first binding wins). -/
abbrev Meta := List (String × MetaValue)

/-- Lookup of a metadata key. -/
def metaLookup (m : Meta) (k : String) : Option MetaValue :=
  (m.find? (fun p => p.1 = k)).map (fun p => p.2)

/-- JSON round-trip of a metadata value: `encoding/json` decodes every
number as `float64`. -/
def jsonRound : MetaValue → MetaValue
  | .int n => .num (n : Rat)
  | .num q => .num q
  | .str s => .str s

/-- JSON round-trip of a whole metadata map. -/
def jsonRoundMeta (m : Meta) : Meta :=
  m.map (fun p => (p.1, jsonRound p.2))

/-- The `where` filters the services build: a single equality
(`{key: value}`) or a `$and` of sub-filters. -/
inductive WhereClause where
  | eq (key : String) (v : MetaValue)
  | and (cs : List WhereClause)

mutual

/-- Whether a metadata map satisfies a where-filter (metadata equality,
spec §3/§4.3). -/
def matchesWhere : WhereClause → Meta → Bool
  | .eq k v, m => metaLookup m k == some v
  | .and cs, m => matchesAll cs m

/-- Conjunction of filters. -/
def matchesAll : List WhereClause → Meta → Bool
  | [], _ => true
  | c :: cs, m => matchesWhere c m && matchesAll cs m

end

/-! ### The vector store (spec §4.3 / §6, external collaborator) -/

/-- An embedding vector.  The numeric contents of the `float32` vectors are
irrelevant to every claim; exact rationals stand in for the floats. -/
abbrev Embedding := List Rat

/-- A persisted vector-store record (spec §3). -/
structure VRecord where
  id : String
  embedding : Embedding
  document : String
  metadata : Meta
  deriving DecidableEq

/-- The vector-store state. -/
abbrev Store := List VRecord

/-- Modelled from the spec (§4.3 `add` "upserts all records in one call"):
upserting one record replaces an existing record with the same id,
otherwise appends. -/
def upsertRecord (store : Store) (r : VRecord) : Store :=
  if store.any (fun s => s.id = r.id) then
    store.map (fun s => if s.id = r.id then r else s)
  else store ++ [r]

/-- Upsert a batch of records in order. -/
def upsertRecords (store : Store) (rs : List VRecord) : Store :=
  rs.foldl upsertRecord store

/-- The records carried by one `add` request.  `metadatas` is optional on
the wire (`omitempty`); a missing entry is modelled as an empty map. -/
def mkRecords (ids : List String) (embeddings : List Embedding)
    (documents : List String) (metadatas : List Meta) : List VRecord :=
  (List.range ids.length).map (fun i =>
    ⟨ids.getD i "", embeddings.getD i [], documents.getD i "", metadatas.getD i []⟩)

/-- Modelled from the spec (§4.3 `query`): the store returns at most `topK`
records satisfying the metadata filter.  Ranking by ascending distance is
not modelled — no claim depends on the order. -/
def storeQuery (store : Store) (topK : Nat) (w : WhereClause) : List VRecord :=
  (store.filter (fun r => matchesWhere w r.metadata)).take topK

/-- Modelled from the spec (§4.3 `getIdsByMetadata`): the ids of the
records satisfying the filter. -/
def storeGetIds (store : Store) (w : WhereClause) : List String :=
  (store.filter (fun r => matchesWhere w r.metadata)).map (fun r => r.id)

/-- Modelled from the spec (§4.3 `delete(ids)`): removes the records whose
id is in the list. -/
def storeDelete (store : Store) (ids : List String) : Store :=
  store.filter (fun r => !(ids.contains r.id))

/-! ### The Chroma client (`pkg/chroma`, `Client.Add` / `Query` / `Delete`) -/

/-- The validation message of `Client.Add`. -/
def addValidationMsg : String := "ids, embeddings, and documents must have the same length"

/-- Models `Client.Add(ctx, ids, embeddings, documents, metadatas)`:
validates that `ids`, `embeddings` and `documents` have equal length
(the `metadatas` length is not inspected), then issues one upsert request;
`respOk` injects the HTTP response outcome.  The second component records
whether a store request was issued. -/
def clientAdd (ids : List String) (embeddings : List Embedding)
    (documents : List String) (metadatas : List Meta)
    (store : Store) (respOk : Bool) : Except String Store × Bool :=
  if ids.length ≠ embeddings.length ∨ ids.length ≠ documents.length then
    (.error addValidationMsg, false)
  else if respOk then
    (.ok (upsertRecords store (mkRecords ids embeddings documents metadatas)), true)
  else
    (.error "failed to add documents", true)

/-- The wire shape of a Chroma query response (one inner list per query
vector; the services only ever send one query vector). -/
structure QueryResponse where
  ids : List (List String)
  distances : List (List Rat)
  documents : List (List String)
  metadatas : List (List Meta)
  deriving DecidableEq

/-- Modelled from the spec: the response the store produces for the
selected records.  Metadata numbers come back as JSON numbers
(`float64`), hence the `jsonRoundMeta`.  Distances are not modelled. -/
def queryResponseOf (rs : List VRecord) : QueryResponse :=
  { ids := [rs.map (fun r => r.id)]
  , distances := [rs.map (fun _ => (0 : Rat))]
  , documents := [rs.map (fun r => r.document)]
  , metadatas := [rs.map (fun r => jsonRoundMeta r.metadata)] }

/-- `Client.Query` against a store state, with `respOk` injecting the
transport outcome.  `nResults` is the Go `int` passed by the caller. -/
def chromaQueryFn (store : Store) (respOk : Bool)
    (_queryVec : Embedding) (nResults : Int) (w : WhereClause) :
    Except String QueryResponse :=
  if respOk then .ok (queryResponseOf (storeQuery store nResults.toNat w))
  else .error "transport failure"

/-! ### Data model (`internal/models`) -/

/-- `models.Document` (timestamps omitted: no claim mentions them). -/
structure Document where
  id : Nat
  userID : Nat
  title : String
  content : String
  status : String
  deriving DecidableEq

/-- `models.Chunk`. -/
structure Chunk where
  documentID : Nat
  userID : Nat
  index : Int
  content : String
  deriving DecidableEq

/-! ### The indexer (`RAGService.IndexDocument`) -/

/-- Go truncation of a `float64` toward zero (`int(f)` / `uint(f)` for the
values in range). -/
def ratTrunc (q : Rat) : Int :=
  if 0 ≤ q then q.floor else -((-q).floor)

/-- Go `uint(f)` for a non-negative `float64` value. -/
def uintOfRat (q : Rat) : Nat :=
  (ratTrunc q).toNat

/-- The deterministic record id `fmt.Sprintf("%d-%d-%d", doc.ID, i, doc.UserID)`. -/
def chromaRecordId (docID : Nat) (chunkIndex : Nat) (userID : Nat) : String :=
  toString docID ++ "-" ++ toString chunkIndex ++ "-" ++ toString userID

/-- The metadata map the indexer attaches to chunk `i` of `d`. -/
def indexMetadata (d : Document) (i : Nat) : Meta :=
  [ ("document_id", .int (d.id : Int))
  , ("user_id", .int (d.userID : Int))
  , ("chunk_index", .int (i : Int))
  , ("title", .str d.title) ]

/-- One `Client.Add` call as issued by the indexer. -/
structure AddCall where
  ids : List String
  embeddings : List Embedding
  documents : List String
  metadatas : List Meta
  deriving DecidableEq

/-- Outcome of `IndexDocument`.  `panic` models a Go nil-pointer
dereference (runtime panic). -/
inductive IndexResult where
  | ok
  | err (msg : String)
  | panic
  deriving DecidableEq

/-- Models `RAGService.IndexDocument(ctx, doc)`.
`enabled` is `s.IsEnabled()`; `doc` is the (possibly nil) document
pointer; `embedResp` is the embedding provider's response to the one
batch call; `addOk` injects the HTTP outcome of the `add` request.
Returns the result, the resulting store state, and the `add` call
issued (if any).

Note the disabled branch: the Go code logs `doc.ID` and `doc.UserID`
before any nil check, so a nil document dereferences nil there. -/
def indexDocument (enabled : Bool) (doc : Option Document)
    (embedResp : Except String (List Embedding))
    (store : Store) (addOk : Bool) : IndexResult × Store × Option AddCall :=
  if enabled then
    match doc with
    | none => (.err "invalid document for indexing", store, none)
    | some d =>
      if d.id = 0 ∨ d.userID = 0 then (.err "invalid document for indexing", store, none)
      else
        let chunks := chunkText d.content 800
        if chunks = [] then (.ok, store, none)
        else
          match embedResp with
          | .error e => (.err ("failed to create embeddings: " ++ e), store, none)
          | .ok embs =>
            if embs.length ≠ chunks.length then
              (.err "embeddings count mismatch", store, none)
            else
              let ids := (List.range chunks.length).map
                (fun i => chromaRecordId d.id i d.userID)
              let metadatas := (List.range chunks.length).map (indexMetadata d)
              match clientAdd ids embs chunks metadatas store addOk with
              | (res, issued) =>
                let call := if issued then some ⟨ids, embs, chunks, metadatas⟩ else none
                match res with
                | .ok store' => (.ok, store', call)
                | .error e => (.err ("failed to add documents to Chroma: " ++ e), store, call)
  else
    -- RAG disabled: the log statement dereferences the document pointer.
    match doc with
    | none => (.panic, store, none)
    | some _ => (.ok, store, none)

/-! ### The retriever (`RAGService.RetrieveRelevantChunks`) -/

/-- Outcome of `RetrieveRelevantChunks`.  `panic` models the Go
out-of-range access `queryResp.Metadatas[0]` when the response carries a
non-empty document list but an empty metadata matrix. -/
inductive RetrieveResult where
  | ok (chunks : List Chunk)
  | err (msg : String)
  | panic
  deriving DecidableEq

/-- Field extraction from one query-result metadata map, mirroring the
Go type assertions `metadata["…"].(float64)`: an assertion that fails
(missing key or non-number value) leaves the zero value in place. -/
def extractChunk (doc : String) (m : Meta) : Chunk :=
  { documentID :=
      match metaLookup m "document_id" with
      | some (.num q) => uintOfRat q
      | _ => 0
  , userID :=
      match metaLookup m "user_id" with
      | some (.num q) => uintOfRat q
      | _ => 0
  , index :=
      match metaLookup m "chunk_index" with
      | some (.num q) => ratTrunc q
      | _ => 0
  , content := doc }

/-- The conversion loop over `queryResp.Documents[0]`: position `i` is
skipped (`continue`) when `i >= len(queryResp.Metadatas[0])`, otherwise
the chunk is appended unconditionally. -/
def convertLoop (metas : List Meta) : Nat → List String → List Chunk
  | _, [] => []
  | i, d :: ds =>
    match metas.get? i with
    | none => convertLoop metas (i + 1) ds
    | some m => extractChunk d m :: convertLoop metas (i + 1) ds

/-- The Chroma response → `[]models.Chunk` conversion of
`RetrieveRelevantChunks` (rag_service.go lines 190–214). -/
def convertChunks (docs : List String) (metas : List Meta) : List Chunk :=
  convertLoop metas 0 docs

/-- Models `RAGService.RetrieveRelevantChunks(ctx, userID, question, topK)`.
`enabled` is `s.IsEnabled()`; `embedResp` is the embedding provider's
response to the single-question batch; `queryFn` is the Chroma `Query`
call (instantiate it with `chromaQueryFn store respOk` to run against a
store state). -/
def retrieveRelevantChunks (enabled : Bool) (userID : Nat) (question : String)
    (topK : Int) (embedResp : Except String (List Embedding))
    (queryFn : Embedding → Int → WhereClause → Except String QueryResponse) :
    RetrieveResult :=
  if enabled then
    if userID = 0 then .err "invalid user"
    else if goTrim question = "" then .err "question is empty"
    else
      let topK := if topK ≤ 0 then 5 else topK
      match embedResp with
      | .error e => .err ("failed to create question embedding: " ++ e)
      | .ok data =>
        match data with
        | [] => .err "no embedding returned for question"
        | queryVec :: _ =>
          match queryFn queryVec topK (.eq "user_id" (.int (userID : Int))) with
          | .error e => .err ("failed to query Chroma: " ++ e)
          | .ok resp =>
            match resp.documents with
            | [] => .ok []
            | docs0 :: _ =>
              if docs0 = [] then .ok []
              else
                match resp.metadatas with
                | [] => .panic   -- Go: `queryResp.Metadatas[0]` out of range
                | metas0 :: _ => .ok (convertChunks docs0 metas0)
  else .ok []

/-- `RetrieveRelevantChunks` run against a modelled store state. -/
def retrieveFromStore (userID : Nat) (question : String) (topK : Int)
    (embedResp : Except String (List Embedding)) (store : Store)
    (queryOk : Bool) : RetrieveResult :=
  retrieveRelevantChunks true userID question topK embedResp
    (chromaQueryFn store queryOk)

/-! ### The deleter (`RAGService.DeleteDocument`) -/

/-- The compound filter `{$and: [{document_id: docID}, {user_id: userID}]}`. -/
def deleteWhere (docID userID : Nat) : WhereClause :=
  .and [.eq "document_id" (.int (docID : Int)), .eq "user_id" (.int (userID : Int))]

/-- Models `RAGService.DeleteDocument(ctx, docID, userID)`.
`getOk` / `delOk` inject the outcomes of the `GetIDsByMetadata` and
`Delete` transport calls.  Returns the result, the resulting store, and
the id list passed to `Delete` (if that call was issued). -/
def ragDeleteDocument (enabled : Bool) (docID userID : Nat) (store : Store)
    (getOk delOk : Bool) : Except String Unit × Store × Option (List String) :=
  if enabled then
    if docID = 0 ∨ userID = 0 then
      (.error "invalid document or user for deletion", store, none)
    else if getOk then
      let ids := storeGetIds store (deleteWhere docID userID)
      if ids = [] then (.ok (), store, none)
      else if delOk then (.ok (), storeDelete store ids, some ids)
      else (.error "failed to delete chunks from Chroma", store, some ids)
    else (.error "failed to get document chunk ids", store, none)
  else (.ok (), store, none)

/-! ### The document service (`DocumentService.Create` / `Delete`) -/

/-- Outcome of `DocumentService.Create` (a propagated runtime panic is
kept distinct, matching `IndexResult.panic`). -/
inductive CreateResult where
  | ok (d : Document)
  | err (msg : String)
  | panic
  deriving DecidableEq

/-- `DocumentRepository.Update`: replace the row with the same primary key. -/
def repoUpdate (repo : List Document) (d : Document) : List Document :=
  repo.map (fun r => if r.id = d.id then d else r)

/-- Models `DocumentService.Create(userID, req)`.
The relational repository is a list of rows; `repoCreateOk` and
`assignedID` model the insert (which fills in the primary key);
`updateOk` models the status update, whose error the Go code ignores.
`ragEnabled` is `s.ragService != nil && s.ragService.IsEnabled()`; when
it holds, `IndexDocument` runs with the given embedding response, store
state and `add` transport outcome.  On indexing failure the document is
kept and its status set to `"indexing_failed"`; the error is not
propagated. -/
def documentServiceCreate (userID : Nat) (title content : String)
    (ragEnabled : Bool) (repoCreateOk : Bool) (assignedID : Nat)
    (embedResp : Except String (List Embedding)) (vstore : Store) (addOk : Bool)
    (updateOk : Bool) (repo : List Document) :
    CreateResult × List Document × Store :=
  if userID = 0 then (.err "invalid user", repo, vstore)
  else if repoCreateOk then
    let doc : Document := ⟨assignedID, userID, title, content, "ready"⟩
    let repo1 := repo ++ [doc]
    if ragEnabled then
      match indexDocument ragEnabled (some doc) embedResp vstore addOk with
      | (.ok, vstore', _) => (.ok doc, repo1, vstore')
      | (.err _, vstore', _) =>
        let docF : Document := { doc with status := "indexing_failed" }
        (.ok docF, if updateOk then repoUpdate repo1 docF else repo1, vstore')
      | (.panic, vstore', _) => (.panic, repo1, vstore')
    else (.ok doc, repo1, vstore)
  else (.err "failed to create document", repo, vstore)

/-- Models `DocumentService.Delete(userID, docID)`.
When RAG is enabled it first calls `RAGService.DeleteDocument`; an error
from that call is only logged — the relational delete proceeds and its
outcome (`dbOk`) alone decides the reported result. -/
def documentServiceDelete (ragEnabled : Bool) (userID docID : Nat)
    (store : Store) (getOk delOk dbOk : Bool) : Except String Unit × Store :=
  if userID = 0 then (.error "invalid user", store)
  else
    let store' :=
      if ragEnabled then (ragDeleteDocument true docID userID store getOk delOk).2.1
      else store
    if dbOk then (.ok (), store')
    else (.error "failed to delete document from database", store')

/-! ### The streaming answer loop (`QAService.AskStream`) -/

/-- One `stream.Recv()` outcome: a non-EOF receive error, or a response
whose choices carry the delta contents.  The end of the event list is
the `io.EOF` signal. -/
inductive StreamEvent where
  | recvErr (msg : String)
  | message (choices : List String)

/-- The receive loop of `AskStream`: for each response, if the first
choice's delta is non-empty, invoke the callback; a callback error
aborts the loop.  The callback receives the number of prior invocations
(`tr.length`) and the delta; the returned trace lists the deltas passed
to the callback, in order. -/
def streamLoop (cb : Nat → String → Except String Unit) :
    List StreamEvent → List String → Except String Unit × List String
  | [], tr => (.ok (), tr)
  | .recvErr e :: _, tr => (.error ("stream error: " ++ e), tr)
  | .message choices :: rest, tr =>
    match choices with
    | [] => streamLoop cb rest tr
    | delta :: _ =>
      if delta = "" then streamLoop cb rest tr
      else
        match cb tr.length delta with
        | .ok _ => streamLoop cb rest (tr ++ [delta])
        | .error e => (.error ("failed to write chunk: " ++ e), tr ++ [delta])

/-- Models `QAService.AskStream(ctx, userID, question, writeChunk)`.
`clientConfigured` is `s.client != nil`; `buildResult` is the outcome of
`buildMessagesWithContext`; `streamOk` is the outcome of
`CreateChatCompletionStream`; `events` are the provider's stream events.
Returns the Go result together with the callback invocation trace. -/
def askStream (userID : Nat) (clientConfigured : Bool) (question : String)
    (buildResult : Except String Unit) (streamOk : Bool)
    (events : List StreamEvent) (cb : Nat → String → Except String Unit) :
    Except String Unit × List String :=
  if userID = 0 then (.error "invalid user", [])
  else if clientConfigured then
    if goTrim question = "" then (.error "question is empty", [])
    else
      match buildResult with
      | .error e => (.error e, [])
      | .ok _ =>
        if streamOk then streamLoop cb events []
        else (.error "failed to create stream", [])
  else (.error "llm client not configured (missing LLM API key)", [])

/-! ### Chunker lemmas -/

theorem chunkLoop_join (maxLen : Nat) (hm : 0 < maxLen) :
    ∀ (fuel : Nat) (cs : List Char), cs.length ≤ fuel →
      (chunkLoop maxLen fuel cs).flatten = cs := by
  intro fuel
  induction fuel with
  | zero =>
    intro cs hcs
    have : cs = [] := List.length_eq_zero.mp (Nat.le_zero.mp hcs)
    subst this
    rfl
  | succ n ih =>
    intro cs hcs
    match cs with
    | [] => rfl
    | c :: cs' =>
      have hdrop : ((c :: cs').drop maxLen).length ≤ n := by
        rw [List.length_drop]
        have h1 : (c :: cs').length ≤ n + 1 := hcs
        omega
      calc (chunkLoop maxLen (n + 1) (c :: cs')).flatten
          = (c :: cs').take maxLen ++ (chunkLoop maxLen n ((c :: cs').drop maxLen)).flatten := by
            rfl
        _ = (c :: cs').take maxLen ++ (c :: cs').drop maxLen := by rw [ih _ hdrop]
        _ = c :: cs' := List.take_append_drop _ _

theorem chunkLoop_mem_length (maxLen : Nat) :
    ∀ (fuel : Nat) (cs piece : List Char), piece ∈ chunkLoop maxLen fuel cs →
      piece.length ≤ maxLen := by
  intro fuel
  induction fuel with
  | zero => intro cs piece h; simp [chunkLoop] at h
  | succ n ih =>
    intro cs piece h
    match cs with
    | [] => simp [chunkLoop] at h
    | c :: cs' =>
      simp only [chunkLoop] at h
      rcases List.mem_cons.mp h with h | h
      · subst h; rw [List.length_take]; exact Nat.min_le_left _ _
      · exact ih _ _ h

theorem data_append (a b : List Char) :
    (String.mk a ++ String.mk b) = String.mk (a ++ b) := rfl

theorem join_map_mk (L : List (List Char)) :
    String.join (L.map String.mk) = String.mk L.flatten := by
  have general : ∀ (L : List (List Char)) (acc : List Char),
      List.foldl (· ++ ·) (String.mk acc) (L.map String.mk) = String.mk (acc ++ L.flatten) := by
    intro L
    induction L with
    | nil => intro acc; simp [List.flatten]
    | cons x xs ih =>
      intro acc
      simp only [List.map_cons, List.foldl_cons, data_append, List.flatten]
      rw [ih (acc ++ x)]
      simp
  have h := general L []
  simpa [String.join] using h

theorem goTrimList_of_all_space (cs : List Char)
    (h : ∀ c ∈ cs, isSpaceGo c = true) : goTrimList cs = [] := by
  unfold goTrimList
  have h1 : cs.dropWhile isSpaceGo = [] := by
    induction cs with
    | nil => rfl
    | cons c cs' ih =>
      rw [List.dropWhile_cons]
      simp only [h c (by simp)]
      exact ih (fun x hx => h x (by simp [hx]))
  rw [h1]
  rfl

/-- C3 — Chunker round-trip: for every text `t` and positive `maxLength`,
concatenating the chunks of `chunkText t maxLength` in order yields
exactly the whitespace-trimmed `t`, and every chunk has rune length at
most `maxLength`. -/
theorem chunkText_roundtrip (t : String) (maxLen : Int) (hm : 0 < maxLen) :
    String.join (chunkText t maxLen) = goTrim t ∧
    ∀ c ∈ chunkText t maxLen, (c.length : Int) ≤ maxLen := by
  unfold chunkText goTrim
  by_cases h : goTrimList t.data = []
  · rw [h, if_pos (Or.inl rfl)]
    exact ⟨by decide, by simp⟩
  · have hne : ¬(goTrimList t.data = [] ∨ maxLen ≤ 0) := by
      push_neg
      exact ⟨h, by omega⟩
    simp only [if_neg hne]
    constructor
    · rw [join_map_mk,
        chunkLoop_join maxLen.toNat (by omega) _ _ (Nat.le_refl _)]
    · intro c hc
      rcases List.mem_map.mp hc with ⟨cs, hcs, rfl⟩
      have hlen := chunkLoop_mem_length maxLen.toNat _ _ _ hcs
      have hmk : (String.mk cs).length = cs.length := rfl
      rw [hmk]
      omega

theorem chunkText_roundtrip_witness :
    String.join (chunkText "  ab cd  " 3) = goTrim "  ab cd  " ∧
    ∀ c ∈ chunkText "  ab cd  " 3, (c.length : Int) ≤ 3 :=
  chunkText_roundtrip "  ab cd  " 3 (by decide)

/-- C9 — Chunker degenerate inputs: for every text that is empty or
whitespace-only (for any `maxLength`), and for every text when
`maxLength <= 0`, `chunkText` returns the empty sequence (no error
signalling exists: the function is total and just returns `[]`). -/
theorem chunkText_degenerate (t : String) (maxLen : Int)
    (h : (∀ c ∈ t.data, isSpaceGo c = true) ∨ maxLen ≤ 0) :
    chunkText t maxLen = [] := by
  unfold chunkText
  rcases h with h | h
  · rw [goTrimList_of_all_space t.data h]
    simp
  · simp [h]

theorem chunkText_degenerate_witness :
    chunkText " \t\n" 800 = [] ∧ chunkText "xyz" 0 = [] :=
  ⟨chunkText_degenerate " \t\n" 800 (Or.inl (by decide)),
   chunkText_degenerate "xyz" 0 (Or.inr (by decide))⟩

/-! ### Streaming lemmas -/

theorem streamLoop_trace_extend (cb : Nat → String → Except String Unit) :
    ∀ (events : List StreamEvent) (tr : List String),
      ∃ ext, (streamLoop cb events tr).2 = tr ++ ext := by
  intro events
  induction events with
  | nil => intro tr; exact ⟨[], by simp [streamLoop]⟩
  | cons ev rest ih =>
    intro tr
    match ev with
    | .recvErr e => exact ⟨[], by simp [streamLoop]⟩
    | .message choices =>
      match choices with
      | [] => simpa [streamLoop] using ih tr
      | delta :: more =>
        by_cases hd : delta = ""
        · simpa [streamLoop, hd] using ih tr
        · simp only [streamLoop, if_neg hd]
          match hcb : cb tr.length delta with
          | .ok _ =>
            rcases ih (tr ++ [delta]) with ⟨ext, hext⟩
            exact ⟨[delta] ++ ext, by rw [hext]; simp⟩
          | .error e => exact ⟨[delta], rfl⟩

theorem streamLoop_abort (cb : Nat → String → Except String Unit) :
    ∀ (events : List StreamEvent) (tr : List String) (k : Nat) (d : String) (e : String),
      tr.length ≤ k →
      (streamLoop cb events tr).2.get? k = some d →
      cb k d = .error e →
      (streamLoop cb events tr).1 = .error ("failed to write chunk: " ++ e) ∧
      (streamLoop cb events tr).2.length = k + 1 := by
  intro events
  induction events with
  | nil =>
    intro tr k d e hk hget _
    exfalso
    simp only [streamLoop] at hget
    have := List.get?_eq_none.mpr hk
    rw [this] at hget
    exact Option.noConfusion hget
  | cons ev rest ih =>
    intro tr k d e hk hget hcb
    match ev with
    | .recvErr msg =>
      exfalso
      simp only [streamLoop] at hget
      rw [List.get?_eq_none.mpr hk] at hget
      exact Option.noConfusion hget
    | .message choices =>
      match choices with
      | [] =>
        simp only [streamLoop] at hget ⊢
        exact ih tr k d e hk hget hcb
      | delta :: more =>
        by_cases hd : delta = ""
        · simp only [streamLoop, if_pos hd] at hget ⊢
          exact ih tr k d e hk hget hcb
        · simp only [streamLoop, if_neg hd] at hget ⊢
          match hres : cb tr.length delta with
          | .ok u =>
            rw [hres] at hget
            dsimp only at hget ⊢
            rcases Nat.lt_or_ge k (tr.length + 1) with hlt | hge
            · -- k = tr.length: but the callback succeeded there
              have hkeq : k = tr.length := by omega
              exfalso
              rcases streamLoop_trace_extend cb rest (tr ++ [delta]) with ⟨ext, hext⟩
              rw [hext] at hget
              have : ((tr ++ [delta]) ++ ext).get? k = some delta := by
                rw [List.get?_append (by simp [hkeq])]
                rw [hkeq]
                simp [List.get?_append_right (Nat.le_refl _)]
              rw [this] at hget
              have hdd : delta = d := by injection hget
              rw [← hkeq, hdd] at hres
              rw [hcb] at hres
              exact Except.noConfusion hres
            · have : (tr ++ [delta]).length ≤ k := by simp; omega
              exact ih (tr ++ [delta]) k d e this hget hcb
          | .error e0 =>
            rw [hres] at hget
            dsimp only at hget ⊢
            -- trace is tr ++ [delta]; the only position ≥ tr.length is tr.length
            have hklt : k < (tr ++ [delta]).length := by
              by_contra hcon
              rw [List.get?_eq_none.mpr (Nat.le_of_not_lt (fun hh => hcon hh))] at hget
              exact Option.noConfusion hget
            have hkeq : k = tr.length := by
              simp at hklt
              omega
            have hdd : (tr ++ [delta]).get? k = some delta := by
              rw [hkeq]
              simp [List.get?_append_right (Nat.le_refl _)]
            rw [hdd] at hget
            have : delta = d := by injection hget
            subst this
            rw [hkeq] at hcb
            rw [hres] at hcb
            have : e0 = e := by injection hcb
            subst this
            exact ⟨rfl, by simp [hkeq]⟩

/-- C5 — Streaming callback failure aborts the stream: in every run of
`askStream`, if the callback errors on the invocation with index `k`
(0-based; the `(k+1)`-th invocation), the overall call returns an error
wrapping the callback error and the callback is invoked exactly `k + 1`
times — in particular no further invocation occurs. -/
theorem askStream_callback_abort (userID : Nat) (clientConfigured : Bool)
    (question : String) (buildResult : Except String Unit) (streamOk : Bool)
    (events : List StreamEvent) (cb : Nat → String → Except String Unit)
    (k : Nat) (d : String) (e : String)
    (hget : (askStream userID clientConfigured question buildResult streamOk events cb).2.get? k = some d)
    (hcb : cb k d = .error e) :
    (askStream userID clientConfigured question buildResult streamOk events cb).1 =
      .error ("failed to write chunk: " ++ e) ∧
    (askStream userID clientConfigured question buildResult streamOk events cb).2.length = k + 1 := by
  unfold askStream at hget ⊢
  by_cases h1 : userID = 0
  · simp [h1] at hget
  · simp only [if_neg h1] at hget ⊢
    match clientConfigured with
    | false => simp at hget
    | true =>
      simp only [if_pos rfl] at hget ⊢
      by_cases h2 : goTrim question = ""
      · simp [h2] at hget
      · simp only [if_neg h2] at hget ⊢
        match buildResult with
        | .error msg => simp at hget
        | .ok _ =>
          match streamOk with
          | false => simp at hget
          | true =>
            simp only [if_pos rfl] at hget ⊢
            exact streamLoop_abort cb events [] k d e (Nat.zero_le k) hget hcb

theorem askStream_callback_abort_witness :
    (askStream 1 true "q" (.ok ()) true
      [.message ["a"], .message ["b"], .message ["c"]]
      (fun k _ => if k = 1 then .error "boom" else .ok ())).1 =
      .error ("failed to write chunk: " ++ "boom") ∧
    (askStream 1 true "q" (.ok ()) true
      [.message ["a"], .message ["b"], .message ["c"]]
      (fun k _ => if k = 1 then .error "boom" else .ok ())).2.length = 1 + 1 :=
  askStream_callback_abort 1 true "q" (.ok ()) true
    [.message ["a"], .message ["b"], .message ["c"]]
    (fun k _ => if k = 1 then .error "boom" else .ok ()) 1 "b" "boom"
    rfl rfl

/-- C8 — Deterministic id derivation: whenever `IndexDocument` issues its
`add` call, the id at chunk position `i` is
`chromaRecordId doc.id i doc.userID` — a pure function of
`(document id, chunk index, user id)` — so two indexing runs of the same
unmodified document send identical id sequences. -/
theorem indexDocument_deterministic_ids :
    (∀ (d : Document) (e : Except String (List Embedding)) (store : Store)
        (addOk : Bool) (c : AddCall),
      (indexDocument true (some d) e store addOk).2.2 = some c →
      c.ids = (List.range (chunkText d.content 800).length).map
        (fun i => chromaRecordId d.id i d.userID)) ∧
    (∀ (d : Document) (e₁ e₂ : Except String (List Embedding))
        (store₁ store₂ : Store) (addOk₁ addOk₂ : Bool) (c₁ c₂ : AddCall),
      (indexDocument true (some d) e₁ store₁ addOk₁).2.2 = some c₁ →
      (indexDocument true (some d) e₂ store₂ addOk₂).2.2 = some c₂ →
      c₁.ids = c₂.ids) := by
  have p1 : ∀ (d : Document) (e : Except String (List Embedding)) (store : Store)
      (addOk : Bool) (c : AddCall),
      (indexDocument true (some d) e store addOk).2.2 = some c →
      c.ids = (List.range (chunkText d.content 800).length).map
        (fun i => chromaRecordId d.id i d.userID) := by
    intro d e store addOk c h
    simp only [indexDocument] at h
    split at h
    · split at h
      · simp at h
      · split at h
        · simp at h
        · match e with
          | .error msg => simp at h
          | .ok embs =>
            dsimp only at h
            split at h
            · simp at h
            · next hlen =>
              have hlen' : embs.length = (chunkText d.content 800).length :=
                not_ne_iff.mp hlen
              have hv : ¬(((List.range (chunkText d.content 800).length).map
                    (fun i => chromaRecordId d.id i d.userID)).length ≠ embs.length ∨
                  ((List.range (chunkText d.content 800).length).map
                    (fun i => chromaRecordId d.id i d.userID)).length ≠
                    (chunkText d.content 800).length) := by
                refine not_or.mpr ⟨?_, ?_⟩ <;>
                  simp [List.length_map, List.length_range] <;> omega
              simp only [clientAdd] at h
              simp only [if_neg hv] at h
              by_cases ha : addOk = true
              · simp only [if_pos ha] at h
                injection h with h
                rw [← h]
              · simp only [if_neg ha] at h
                injection h with h
                rw [← h]
    · simp at h
  exact ⟨p1, fun d e₁ e₂ s₁ s₂ a₁ a₂ c₁ c₂ h₁ h₂ => by
    rw [p1 d e₁ s₁ a₁ c₁ h₁, p1 d e₂ s₂ a₂ c₂ h₂]⟩

theorem indexDocument_deterministic_ids_witness :
    (indexDocument true (some ⟨1, 2, "t", "hi", "ready"⟩) (.ok [[(0 : Rat)]]) [] true).2.2 =
      some ⟨["1-0-2"], [[(0 : Rat)]], ["hi"],
        [[("document_id", .int 1), ("user_id", .int 2), ("chunk_index", .int 0),
          ("title", .str "t")]]⟩ ∧
    (AddCall.mk ["1-0-2"] [[(0 : Rat)]] ["hi"]
        [[("document_id", .int 1), ("user_id", .int 2), ("chunk_index", .int 0),
          ("title", .str "t")]]).ids =
      (List.range (chunkText "hi" 800).length).map (fun i => chromaRecordId 1 i 2) :=
  ⟨by decide,
   indexDocument_deterministic_ids.1 ⟨1, 2, "t", "hi", "ready"⟩ (.ok [[(0 : Rat)]]) [] true _
     (by decide)⟩

/-- C7 counterexample — `Client.Add` does not validate the `metadatas`
length: with `metadatas = []` against three singleton sequences (so the
four lengths are not all equal) the call succeeds and issues the store
request instead of failing with the validation error. -/
theorem clientAdd_metadatas_unchecked_cex :
    clientAdd ["a"] [[(1 : Rat)]] ["d"] [] [] true =
      (.ok [⟨"a", [(1 : Rat)], "d", []⟩], true) ∧
    ([] : List Meta).length ≠ (["a"] : List String).length :=
  ⟨rfl, by decide⟩

/-- C7 amended — `Client.Add` fails with the validation error (and issues
no request) exactly when `ids`, `embeddings`, `documents` do not all
have equal length; the `metadatas` length is never inspected.  When the
three lengths agree it issues the single upsert request and the outcome
is decided solely by the response (`respOk`). -/
theorem clientAdd_validation (ids : List String) (embs : List Embedding)
    (docs : List String) (metas : List Meta) (store : Store) (respOk : Bool) :
    (¬(ids.length = embs.length ∧ ids.length = docs.length) →
      clientAdd ids embs docs metas store respOk = (.error addValidationMsg, false)) ∧
    (ids.length = embs.length ∧ ids.length = docs.length →
      clientAdd ids embs docs metas store respOk =
        ((if respOk then .ok (upsertRecords store (mkRecords ids embs docs metas))
          else .error "failed to add documents"), true)) := by
  constructor
  · intro hne
    have hc : ids.length ≠ embs.length ∨ ids.length ≠ docs.length := by tauto
    simp only [clientAdd, if_pos hc]
  · rintro ⟨h1, h2⟩
    have hc : ¬(ids.length ≠ embs.length ∨ ids.length ≠ docs.length) := by tauto
    simp only [clientAdd, if_neg hc]
    split
    · rfl
    · rfl

theorem clientAdd_validation_witness :
    clientAdd ["a"] [[(1 : Rat)]] ["d"] [[("k", .str "v")]] [] true =
      ((if true then .ok (upsertRecords [] (mkRecords ["a"] [[(1 : Rat)]] ["d"] [[("k", .str "v")]]))
        else .error "failed to add documents"), true) :=
  (clientAdd_validation ["a"] [[(1 : Rat)]] ["d"] [[("k", .str "v")]] [] true).2 (by decide)

/-- C10 counterexample — with RAG disabled, `IndexDocument` on a nil
document does not return success: the disabled-branch log statement
dereferences the nil pointer (`doc.ID`), a runtime panic. -/
theorem indexDocument_disabled_nil_cex :
    indexDocument false none (.ok []) [] true = (.panic, [], none) ∧
    IndexResult.panic ≠ IndexResult.ok :=
  ⟨rfl, by decide⟩

/-- C10 amended — the disabled-state check precedes argument validation:
with RAG disabled, `RetrieveRelevantChunks` returns an empty result and
`DeleteDocument` returns success for all inputs (including zero ids and
empty questions), and `IndexDocument` returns success for every non-nil
document (including zero ids); only a nil document escapes this, by
panicking in the disabled-path logging.  The invalid-input checks are
reachable only when RAG is enabled. -/
theorem disabled_precedes_validation :
    ∀ (uid : Nat) (q : String) (k : Int) (e : Except String (List Embedding))
      (qf : Embedding → Int → WhereClause → Except String QueryResponse)
      (d : Document) (store : Store) (addOk getOk delOk : Bool) (docID : Nat),
      retrieveRelevantChunks false uid q k e qf = .ok [] ∧
      indexDocument false (some d) e store addOk = (.ok, store, none) ∧
      ragDeleteDocument false docID uid store getOk delOk = (.ok (), store, none) :=
  fun _ _ _ _ _ _ _ _ _ _ _ => ⟨rfl, rfl, rfl⟩

/-! ### Store and metadata lemmas -/

theorem mem_upsertRecord {s : Store} {r0 r : VRecord}
    (h : r ∈ upsertRecord s r0) : r ∈ s ∨ r = r0 := by
  unfold upsertRecord at h
  split at h
  · rcases List.mem_map.mp h with ⟨x, hx, hxe⟩
    by_cases hid : x.id = r0.id
    · right
      rw [if_pos hid] at hxe
      exact hxe.symm
    · left
      rw [if_neg hid] at hxe
      exact hxe ▸ hx
  · rcases List.mem_append.mp h with h' | h'
    · exact Or.inl h'
    · exact Or.inr (List.mem_singleton.mp h')

theorem mem_upsertRecords {rs : List VRecord} :
    ∀ {s : Store} {r : VRecord}, r ∈ upsertRecords s rs → r ∈ s ∨ r ∈ rs := by
  induction rs with
  | nil => intro s r h; exact Or.inl h
  | cons r0 rest ih =>
    intro s r h
    rcases ih h with h' | h'
    · rcases mem_upsertRecord h' with h'' | h''
      · exact Or.inl h''
      · exact Or.inr (by simp [h''])
    · exact Or.inr (by simp [h'])

theorem metaLookup_jsonRoundMeta (m : Meta) (k : String) :
    metaLookup (jsonRoundMeta m) k = (metaLookup m k).map jsonRound := by
  induction m with
  | nil => rfl
  | cons p rest ih =>
    by_cases hk : p.1 = k
    · simp [metaLookup, jsonRoundMeta, List.find?, hk]
    · simp only [metaLookup, jsonRoundMeta, List.map_cons, List.find?] at ih ⊢
      have h1 : (decide (p.1 = k)) = false := by simp [hk]
      rw [h1]
      simpa [jsonRoundMeta] using ih

theorem metaLookup_indexMetadata_userId (d : Document) (i : Nat) :
    metaLookup (indexMetadata d i) "user_id" = some (.int (d.userID : Int)) := rfl

theorem mem_mkRecords {ids : List String} {embs : List Embedding}
    {docs : List String} {metas : List Meta} {r : VRecord}
    (h : r ∈ mkRecords ids embs docs metas) :
    ∃ i, i < ids.length ∧
      r = ⟨ids.getD i "", embs.getD i [], docs.getD i "", metas.getD i []⟩ := by
  rcases List.mem_map.mp h with ⟨i, hi, hie⟩
  exact ⟨i, List.mem_range.mp hi, hie.symm⟩

theorem uintOfRat_natCast (n : Nat) : uintOfRat (n : Rat) = n := by
  unfold uintOfRat ratTrunc
  rw [if_pos (by positivity)]
  have : ((n : Rat)).floor = (n : Int) := by
    rw [Rat.floor_def', show ((n : Rat)).num = (n : Int) from Rat.num_natCast n,
      show ((n : Rat)).den = 1 from Rat.den_natCast n]
    simp
  rw [this]
  exact Int.toNat_natCast n

theorem matchesWhere_eq_iff (k : String) (v : MetaValue) (m : Meta) :
    matchesWhere (.eq k v) m = true ↔ metaLookup m k = some v := by
  simp [matchesWhere]

theorem storeQuery_mem {store : Store} {topK : Nat} {w : WhereClause} {r : VRecord}
    (h : r ∈ storeQuery store topK w) :
    r ∈ store ∧ matchesWhere w r.metadata = true := by
  unfold storeQuery at h
  have h' := List.take_subset _ _ h
  rw [List.mem_filter] at h'
  exact h'

theorem convertLoop_eq_zip (metas : List Meta) :
    ∀ (ds : List String) (i : Nat),
      convertLoop metas i ds =
        (ds.zip (metas.drop i)).map (fun p => extractChunk p.1 p.2) := by
  intro ds
  induction ds with
  | nil => intro i; simp [convertLoop]
  | cons d ds' ih =>
    intro i
    match hm : metas.get? i with
    | none =>
      have hlen : metas.length ≤ i := List.get?_eq_none.mp hm
      have h1 : metas.drop i = [] := List.drop_eq_nil_of_le hlen
      have h2 : metas.drop (i + 1) = [] :=
        List.drop_eq_nil_of_le (Nat.le_succ_of_le hlen)
      simp only [convertLoop, hm, ih, h1, h2]
      simp
    | some m =>
      have hlt : i < metas.length := by
        by_contra hcon
        rw [List.get?_eq_none.mpr (Nat.le_of_not_lt hcon)] at hm
        exact Option.noConfusion hm
      have hdrop : metas.drop i = m :: metas.drop (i + 1) := by
        rw [List.drop_eq_getElem_cons hlt]
        have : metas[i] = m := by
          have := List.get?_eq_getElem? metas i
          rw [hm, List.getElem?_eq_getElem hlt] at this
          exact (Option.some.inj this).symm
        rw [this]
      simp only [convertLoop, hm, hdrop, List.zip_cons_cons, List.map_cons, ih]

theorem convertChunks_eq_zip (docs : List String) (metas : List Meta) :
    convertChunks docs metas = (docs.zip metas).map (fun p => extractChunk p.1 p.2) := by
  unfold convertChunks
  rw [convertLoop_eq_zip]
  rfl

/-- C6 counterexample — a query result whose metadata map is missing all
three required fields is NOT omitted: `RetrieveRelevantChunks` returns it
as a chunk with zero-valued `DocumentID`/`UserID`/`Index` instead of the
empty chunk list the claim predicts. -/
theorem retrieve_includes_malformed_cex :
    retrieveRelevantChunks true 1 "q" 5 (.ok [[(0 : Rat)]])
        (fun _ _ _ => .ok ⟨[["x"]], [[0]], [["hello"]], [[[]]]⟩) =
      .ok [⟨0, 0, 0, "hello"⟩] ∧
    RetrieveResult.ok [⟨0, 0, 0, "hello"⟩] ≠ .ok [] :=
  ⟨rfl, by decide⟩

/-- C6 amended — result conversion in `RetrieveRelevantChunks` never
fails and never omits a result for missing metadata fields: exactly the
positions `i < min |documents[0]| |metadatas[0]|` are kept, each
converted by `extractChunk` (missing fields default to zero); only
positions beyond the metadata list are skipped. -/
theorem retrieve_malformed_fields_defaulted
    (uid : Nat) (q : String) (k : Int) (emb : Embedding) (es : List Embedding)
    (ids : List (List String)) (dists : List (List Rat))
    (docs0 : List String) (drest : List (List String))
    (m0 : List Meta) (mrest : List (List Meta))
    (hu : uid ≠ 0) (hq : ¬ goTrim q = "") :
    retrieveRelevantChunks true uid q k (.ok (emb :: es))
        (fun _ _ _ => .ok ⟨ids, dists, docs0 :: drest, m0 :: mrest⟩) =
      .ok (convertChunks docs0 m0) ∧
    (convertChunks docs0 m0).length = min docs0.length m0.length ∧
    ∀ (i : Nat) (h1 : i < docs0.length) (h2 : i < m0.length),
      (convertChunks docs0 m0).get? i =
        some (extractChunk (docs0.get ⟨i, h1⟩) (m0.get ⟨i, h2⟩)) := by
  refine ⟨?_, ?_, ?_⟩
  · simp only [retrieveRelevantChunks, if_neg hu, if_neg hq]
    by_cases hd : docs0 = []
    · subst hd
      simp [convertChunks, convertLoop]
    · simp [hd]
  · rw [convertChunks_eq_zip, List.length_map, List.length_zip]
  · intro i h1 h2
    rw [convertChunks_eq_zip, List.get?_map]
    have hz : (docs0.zip m0).get? i = some (docs0.get ⟨i, h1⟩, m0.get ⟨i, h2⟩) := by
      rw [List.get?_zip_eq_some]
      exact ⟨List.get?_eq_get h1, List.get?_eq_get h2⟩
    rw [hz]
    rfl

theorem retrieve_malformed_fields_defaulted_witness :
    retrieveRelevantChunks true 1 "q" 5 (.ok ([(0 : Rat)] :: []))
        (fun _ _ _ => .ok ⟨[["x"]], [[0]], ["hello"] :: [], [[]] :: []⟩) =
      .ok (convertChunks ["hello"] [[]]) ∧
    (convertChunks ["hello"] [[]]).length = min (["hello"] : List String).length ([[]] : List Meta).length ∧
    ∀ (i : Nat) (h1 : i < (["hello"] : List String).length) (h2 : i < ([[]] : List Meta).length),
      (convertChunks ["hello"] [[]]).get? i =
        some (extractChunk ((["hello"] : List String).get ⟨i, h1⟩) (([[]] : List Meta).get ⟨i, h2⟩)) :=
  retrieve_malformed_fields_defaulted 1 "q" 5 [(0 : Rat)] [] [["x"]] [[0]]
    ["hello"] [] [[]] [] (by decide) (by decide)

/-! ### Indexer payload lemmas -/

theorem indexDocument_call_metadatas (d : Document)
    (e : Except String (List Embedding)) (store : Store) (addOk : Bool)
    (c : AddCall) (h : (indexDocument true (some d) e store addOk).2.2 = some c) :
    c.metadatas = (List.range (chunkText d.content 800).length).map (indexMetadata d) := by
  simp only [indexDocument] at h
  split at h
  · split at h
    · simp at h
    · split at h
      · simp at h
      · match e with
        | .error msg => simp at h
        | .ok embs =>
          try dsimp only at h
          split at h
          · simp at h
          · next hlen =>
            have hv : ¬(((List.range (chunkText d.content 800).length).map
                  (fun i => chromaRecordId d.id i d.userID)).length ≠ embs.length ∨
                ((List.range (chunkText d.content 800).length).map
                  (fun i => chromaRecordId d.id i d.userID)).length ≠
                  (chunkText d.content 800).length) := by
              have hlen' : embs.length = (chunkText d.content 800).length :=
                not_ne_iff.mp hlen
              refine not_or.mpr ⟨?_, ?_⟩ <;>
                simp [List.length_map, List.length_range] <;> omega
            simp only [clientAdd] at h
            simp only [if_neg hv] at h
            by_cases ha : addOk = true
            · simp only [if_pos ha] at h
              injection h with h
              rw [← h]
            · simp only [if_neg ha] at h
              injection h with h
              rw [← h]
  · simp at h

theorem indexDocument_store_mem (d : Document)
    (e : Except String (List Embedding)) (store : Store) (addOk : Bool)
    (r : VRecord) (h : r ∈ (indexDocument true (some d) e store addOk).2.1) :
    r ∈ store ∨ ∃ i, r.metadata = indexMetadata d i := by
  simp only [indexDocument] at h
  split at h
  · split at h
    · exact Or.inl h
    · split at h
      · exact Or.inl h
      · match e with
        | .error msg => exact Or.inl h
        | .ok embs =>
          try dsimp only at h
          split at h
          · exact Or.inl h
          · next hlen =>
            have hlen' : embs.length = (chunkText d.content 800).length :=
              not_ne_iff.mp hlen
            have hv : ¬(((List.range (chunkText d.content 800).length).map
                  (fun i => chromaRecordId d.id i d.userID)).length ≠ embs.length ∨
                ((List.range (chunkText d.content 800).length).map
                  (fun i => chromaRecordId d.id i d.userID)).length ≠
                  (chunkText d.content 800).length) := by
              refine not_or.mpr ⟨?_, ?_⟩ <;>
                simp [List.length_map, List.length_range] <;> omega
            simp only [clientAdd] at h
            simp only [if_neg hv] at h
            by_cases ha : addOk = true
            · simp only [if_pos ha] at h
              try dsimp only at h
              rcases mem_upsertRecords h with h' | h'
              · exact Or.inl h'
              · rcases mem_mkRecords h' with ⟨i, hi, hr⟩
                right
                refine ⟨i, ?_⟩
                rw [hr]
                show (((List.range (chunkText d.content 800).length).map
                  (indexMetadata d)).getD i []) = indexMetadata d i
                rw [List.getD_eq_getElem?_getD, List.getElem?_map]
                have hlen2 : i < (chunkText d.content 800).length := by
                  simpa [List.length_map, List.length_range] using hi
                rw [List.getElem?_range hlen2]
                rfl
            · simp only [if_neg ha] at h
              try dsimp only at h
              exact Or.inl h
  · exact Or.inl h

/-- C1 — User-scoping invariant: (1) every metadata map in the `add`
call issued by `IndexDocument` carries `user_id` equal to the owning
document's `UserID`; (2) every record in the store after `IndexDocument`
either predates the call or carries that `user_id`; (3) the store's
query only returns records matching the `{user_id: uid}` filter
`RetrieveRelevantChunks` builds; (4) hence, for every store state,
retrieval for user `uid` only returns chunks whose record metadata —
and therefore whose `UserID` field — is `uid`. -/
theorem userScoping :
    (∀ (d : Document) (e : Except String (List Embedding)) (store : Store)
        (addOk : Bool) (c : AddCall),
      (indexDocument true (some d) e store addOk).2.2 = some c →
      ∀ m ∈ c.metadatas, metaLookup m "user_id" = some (.int (d.userID : Int))) ∧
    (∀ (d : Document) (e : Except String (List Embedding)) (store : Store)
        (addOk : Bool) (r : VRecord),
      r ∈ (indexDocument true (some d) e store addOk).2.1 →
      r ∈ store ∨ metaLookup r.metadata "user_id" = some (.int (d.userID : Int))) ∧
    (∀ (store : Store) (topK : Nat) (uid : Nat) (r : VRecord),
      r ∈ storeQuery store topK (.eq "user_id" (.int (uid : Int))) →
      metaLookup r.metadata "user_id" = some (.int (uid : Int))) ∧
    (∀ (uid : Nat) (q : String) (k : Int) (e : Except String (List Embedding))
        (store : Store) (qok : Bool) (cs : List Chunk),
      retrieveFromStore uid q k e store qok = .ok cs →
      ∀ c ∈ cs, c.userID = uid) := by
  refine ⟨?_, ?_, ?_, ?_⟩
  · intro d e store addOk c h m hm
    rw [indexDocument_call_metadatas d e store addOk c h] at hm
    rcases List.mem_map.mp hm with ⟨i, _, rfl⟩
    exact metaLookup_indexMetadata_userId d i
  · intro d e store addOk r h
    rcases indexDocument_store_mem d e store addOk r h with h' | ⟨i, hi⟩
    · exact Or.inl h'
    · right
      rw [hi]
      exact metaLookup_indexMetadata_userId d i
  · intro store topK uid r h
    exact (matchesWhere_eq_iff _ _ _).mp (storeQuery_mem h).2
  · intro uid q k e store qok cs h c hc
    simp only [retrieveFromStore, retrieveRelevantChunks] at h
    by_cases hu : uid = 0
    · simp [hu] at h
    · simp only [if_pos rfl, if_neg hu] at h
      by_cases hq : goTrim q = ""
      · simp [hq] at h
      · simp only [if_neg hq] at h
        match e with
        | .error msg => simp at h
        | .ok [] => simp at h
        | .ok (v :: vs) =>
          dsimp only [chromaQueryFn] at h
          by_cases hqok : qok = true
          · simp only [if_pos hqok] at h
            dsimp only [queryResponseOf] at h
            have hfinish : ∀ (rs : List VRecord),
                (∀ rec ∈ rs, matchesWhere (.eq "user_id" (.int (uid : Int)))
                  rec.metadata = true) →
                (if rs.map (fun r => r.document) = [] then RetrieveResult.ok []
                 else .ok (convertChunks (rs.map (fun r => r.document))
                            (rs.map (fun r => jsonRoundMeta r.metadata)))) = .ok cs →
                c.userID = uid := by
              intro rs hmatches hh
              split at hh
              · injection hh with hh
                rw [← hh] at hc
                simp at hc
              · injection hh with hh
                rw [← hh] at hc
                rw [convertChunks_eq_zip, List.zip_map', List.map_map] at hc
                rcases List.mem_map.mp hc with ⟨rec, hrec, rfl⟩
                have hmatch := (matchesWhere_eq_iff _ _ _).mp (hmatches rec hrec)
                show (extractChunk rec.document (jsonRoundMeta rec.metadata)).userID = uid
                simp only [extractChunk, metaLookup_jsonRoundMeta, hmatch,
                  Option.map_some', jsonRound]
                have hcast : ((uid : Int) : Rat) = (uid : Rat) := by push_cast; ring
                rw [hcast]
                exact uintOfRat_natCast uid
            split at h
            · split at h
              · exact hfinish _ (fun rec hrec => (storeQuery_mem hrec).2) h
              · exact hfinish _ (fun rec hrec => (storeQuery_mem hrec).2) h
            · next hf => exact absurd trivial hf
          · simp only [if_neg hqok] at h
            simp at h

theorem userScoping_witness :
    (Chunk.mk 1 1 0 "hello").userID = 1 :=
  userScoping.2.2.2 1 "q" 5 (.ok [[(0 : Rat)]])
    [⟨"1-0-1", [(0 : Rat)], "hello",
      [("document_id", .int 1), ("user_id", .int 1), ("chunk_index", .int 0),
       ("title", .str "t")]⟩]
    true [⟨1, 1, 0, "hello"⟩] (by decide) ⟨1, 1, 0, "hello"⟩ (by decide)

/-! ### Deletion lemmas -/

theorem storeDelete_no_matches (store : Store) (w : WhereClause) :
    ∀ r ∈ storeDelete store (storeGetIds store w),
      matchesWhere w r.metadata = false := by
  intro r hr
  unfold storeDelete at hr
  rw [List.mem_filter] at hr
  rcases hr with ⟨hrs, hnotin⟩
  by_contra hmatch
  have hmatch' : matchesWhere w r.metadata = true := by
    cases hx : matchesWhere w r.metadata
    · exact absurd hx hmatch
    · rfl
  have hid : r.id ∈ storeGetIds store w := by
    unfold storeGetIds
    exact List.mem_map.mpr ⟨r, List.mem_filter.mpr ⟨hrs, hmatch'⟩, rfl⟩
  rw [List.contains_eq_any_beq] at hnotin
  simp at hnotin
  exact hnotin r.id hid rfl

/-- C2 counterexample — `DocumentService.Delete` can report success while
vector-store records for the deleted `(document id, user id)` pair
remain: with the RAG enumeration call failing (`getOk = false`) the
error is only logged, the relational delete succeeds, and the matching
record is still in the store. -/
theorem deleteIgnoresRagError_cex :
    documentServiceDelete true 7 5
      [⟨"5-0-7", [], "c",
        [("document_id", .int 5), ("user_id", .int 7), ("chunk_index", .int 0),
         ("title", .str "t")]⟩]
      false true true =
      (.ok (), [⟨"5-0-7", [], "c",
        [("document_id", .int 5), ("user_id", .int 7), ("chunk_index", .int 0),
         ("title", .str "t")]⟩]) ∧
    matchesWhere (deleteWhere 5 7)
      [("document_id", .int 5), ("user_id", .int 7), ("chunk_index", .int 0),
       ("title", .str "t")] = true :=
  ⟨rfl, by decide⟩

/-- C2 amended — `RAGService.DeleteDocument` enumerates the ids matching
the compound `(document_id, user_id)` filter and passes exactly that
list to the store delete; when *it* reports success, no record matching
the pair remains.  `DocumentService.Delete` ignores the RAG delete
error, so its own success guarantees removal only when the store calls
succeed (third part). -/
theorem deleteDocument_removes_pair :
    (∀ (docID userID : Nat) (store : Store) (getOk delOk : Bool) (ids : List String),
      (ragDeleteDocument true docID userID store getOk delOk).2.2 = some ids →
      ids = storeGetIds store (deleteWhere docID userID)) ∧
    (∀ (docID userID : Nat) (store : Store) (getOk delOk : Bool),
      (ragDeleteDocument true docID userID store getOk delOk).1 = .ok () →
      ∀ r ∈ (ragDeleteDocument true docID userID store getOk delOk).2.1,
        matchesWhere (deleteWhere docID userID) r.metadata = false) ∧
    (∀ (userID docID : Nat) (store : Store) (dbOk : Bool),
      userID ≠ 0 → docID ≠ 0 →
      ∀ r ∈ (documentServiceDelete true userID docID store true true dbOk).2,
        matchesWhere (deleteWhere docID userID) r.metadata = false) := by
  have p2 : ∀ (docID userID : Nat) (store : Store) (getOk delOk : Bool),
      (ragDeleteDocument true docID userID store getOk delOk).1 = .ok () →
      ∀ r ∈ (ragDeleteDocument true docID userID store getOk delOk).2.1,
        matchesWhere (deleteWhere docID userID) r.metadata = false := by
    intro docID userID store getOk delOk hok r hr
    simp only [ragDeleteDocument, if_true] at hok hr
    by_cases hid : docID = 0 ∨ userID = 0
    · rw [if_pos hid] at hok
      exact absurd hok (by simp)
    · rw [if_neg hid] at hok hr
      by_cases hget : getOk = true
      · rw [if_pos hget] at hok hr
        by_cases hids : storeGetIds store (deleteWhere docID userID) = []
        · rw [if_pos hids] at hr
          have hfil : store.filter
              (fun r => matchesWhere (deleteWhere docID userID) r.metadata) = [] :=
            List.map_eq_nil.mp hids
          have hall := List.filter_eq_nil.mp hfil
          have hnot := hall r hr
          cases hx : matchesWhere (deleteWhere docID userID) r.metadata
          · rfl
          · exact absurd hx hnot
        · rw [if_neg hids] at hok hr
          by_cases hdel : delOk = true
          · rw [if_pos hdel] at hr
            exact storeDelete_no_matches store (deleteWhere docID userID) r hr
          · rw [if_neg hdel] at hok
            exact absurd hok (by simp)
      · rw [if_neg hget] at hok
        exact absurd hok (by simp)
  refine ⟨?_, p2, ?_⟩
  · intro docID userID store getOk delOk ids h
    simp only [ragDeleteDocument, if_true] at h
    by_cases hid : docID = 0 ∨ userID = 0
    · rw [if_pos hid] at h
      exact absurd h (by simp)
    · rw [if_neg hid] at h
      by_cases hget : getOk = true
      · rw [if_pos hget] at h
        by_cases hids : storeGetIds store (deleteWhere docID userID) = []
        · rw [if_pos hids] at h
          exact absurd h (by simp)
        · rw [if_neg hids] at h
          by_cases hdel : delOk = true
          · rw [if_pos hdel] at h
            exact (Option.some.inj h).symm
          · rw [if_neg hdel] at h
            exact (Option.some.inj h).symm
      · rw [if_neg hget] at h
        exact absurd h (by simp)
  · intro userID docID store dbOk hu hd r hr
    have hragok : (ragDeleteDocument true docID userID store true true).1 = .ok () := by
      simp only [ragDeleteDocument, if_true]
      rw [if_neg (by tauto : ¬(docID = 0 ∨ userID = 0))]
      by_cases hids : storeGetIds store (deleteWhere docID userID) = []
      · rw [if_pos hids]
      · rw [if_neg hids]
    simp only [documentServiceDelete, if_neg hu, if_true] at hr
    by_cases hdb : dbOk = true
    · rw [if_pos hdb] at hr
      exact p2 docID userID store true true hragok r hr
    · rw [if_neg hdb] at hr
      exact p2 docID userID store true true hragok r hr

theorem deleteDocument_removes_pair_witness :
    matchesWhere (deleteWhere 5 7)
      (VRecord.mk "9-0-9" [] "c"
        [("document_id", .int 9), ("user_id", .int 9), ("chunk_index", .int 0),
         ("title", .str "t")]).metadata = false :=
  deleteDocument_removes_pair.2.2 7 5
    [⟨"9-0-9", [], "c",
      [("document_id", .int 9), ("user_id", .int 9), ("chunk_index", .int 0),
       ("title", .str "t")]⟩]
    true (by decide) (by decide) _ (by decide)

/-- C4 — On indexing failure during creation, the document record is
retained and its status reflects the failure: when the repository insert
succeeds and `IndexDocument` returns an error, `Create` returns the
document (not an error) with status `"indexing_failed"`, a row with the
document's id remains in the repository, and when the status update
succeeds that row carries the failed status. -/
theorem create_marks_indexing_failure (userID : Nat) (title content : String)
    (assignedID : Nat) (embedResp : Except String (List Embedding))
    (vstore : Store) (addOk updateOk : Bool) (repo : List Document) (msg : String)
    (hu : userID ≠ 0)
    (hidx : (indexDocument true (some ⟨assignedID, userID, title, content, "ready"⟩)
        embedResp vstore addOk).1 = .err msg) :
    (documentServiceCreate userID title content true true assignedID
        embedResp vstore addOk updateOk repo).1 =
      .ok ⟨assignedID, userID, title, content, "indexing_failed"⟩ ∧
    (∃ r ∈ (documentServiceCreate userID title content true true assignedID
        embedResp vstore addOk updateOk repo).2.1, r.id = assignedID) ∧
    (updateOk = true →
      (⟨assignedID, userID, title, content, "indexing_failed"⟩ : Document) ∈
        (documentServiceCreate userID title content true true assignedID
          embedResp vstore addOk updateOk repo).2.1) := by
  simp only [documentServiceCreate, if_neg hu, if_true]
  rcases hrun : indexDocument true (some ⟨assignedID, userID, title, content, "ready"⟩)
      embedResp vstore addOk with ⟨res, vstore', call⟩
  rw [hrun] at hidx
  match res with
  | .ok => exact absurd hidx (by simp)
  | .panic => exact absurd hidx (by simp)
  | .err m =>
    dsimp only
    refine ⟨rfl, ?_, ?_⟩
    · by_cases hup : updateOk = true
      · rw [if_pos hup]
        refine ⟨⟨assignedID, userID, title, content, "indexing_failed"⟩, ?_, rfl⟩
        unfold repoUpdate
        apply List.mem_map.mpr
        refine ⟨⟨assignedID, userID, title, content, "ready"⟩, by simp, ?_⟩
        rw [if_pos rfl]
      · rw [if_neg hup]
        exact ⟨⟨assignedID, userID, title, content, "ready"⟩, by simp, rfl⟩
    · intro hup
      rw [if_pos hup]
      unfold repoUpdate
      apply List.mem_map.mpr
      refine ⟨⟨assignedID, userID, title, content, "ready"⟩, by simp, ?_⟩
      rw [if_pos rfl]

theorem create_marks_indexing_failure_witness :
    (documentServiceCreate 1 "t" "c" true true 2 (.error "x") [] true true []).1 =
      .ok ⟨2, 1, "t", "c", "indexing_failed"⟩ ∧
    (∃ r ∈ (documentServiceCreate 1 "t" "c" true true 2
        (.error "x") [] true true []).2.1, r.id = 2) ∧
    (true = true →
      (⟨2, 1, "t", "c", "indexing_failed"⟩ : Document) ∈
        (documentServiceCreate 1 "t" "c" true true 2 (.error "x") [] true true []).2.1) :=
  create_marks_indexing_failure 1 "t" "c" 2 (.error "x") [] true true []
    "failed to create embeddings: x" (by decide) (by decide)
